import Mathlib

/-!
Verification development for the n8n video renderer service (src/main.py).

Python strings are modelled as `List Char`; Python floats as exact
rationals `ℚ` (the spec allows a floating tolerance; the algebraic shape
of the computation is what is verified); external collaborators
(PIL rasterization, base64 decoding, ffmpeg, storage) are modelled at
their boundary as explicit parameters or environment records, exactly as
the spec's scope section prescribes.
-/

namespace VideoRenderer
/-- The newline character used by the chunker as a structural line separator. -/
def NL : Char := '\n'

/-- Fallback tokenizer of `wrap_and_chunk_thai_text`: when pythainlp is
unavailable, `words = list(text)` tokenizes the script into its individual
characters (each a one-character token). -/
def tokenizeFallback (text : List Char) : List (List Char) :=
  text.map (fun c => [c])

/-- Step `if current_line: current_chunk.append(current_line)` — close the
current line into the current chunk, dropping it when empty. -/
def closeLine (cc : List (List Char)) (cl : List Char) : List (List Char) :=
  if cl = [] then cc else cc ++ [cl]

/-- The greedy packing loop of `wrap_and_chunk_thai_text`, with the chunks
kept structurally as lists of lines (the source joins each chunk's lines
with a newline at the end; see `wrap_and_chunk_thai_text`).
State: accumulated chunks, current chunk (closed lines), current line. -/
def wrapLoop (W H : Nat) :
    List (List Char) → List (List (List Char)) → List (List Char) → List Char →
    List (List (List Char))
  | [], chunks, cc, cl =>
      -- trailing flush: `if current_line: ...` then `if current_chunk: ...`
      if closeLine cc cl = [] then chunks else chunks ++ [closeLine cc cl]
  | w :: ws, chunks, cc, cl =>
      if cl.length + w.length ≤ W then
        wrapLoop W H ws chunks cc (cl ++ w)
      else
        if (closeLine cc cl).length = H then
          wrapLoop W H ws (chunks ++ [closeLine cc cl]) [] w
        else wrapLoop W H ws chunks (closeLine cc cl) w

/-- Structural form of the chunker: the chunks as lists of lines, before the
final newline join. -/
def chunkLines (text : List Char) (W H : Nat) : List (List (List Char)) :=
  wrapLoop W H (tokenizeFallback text) [] [] []

/-- Model of `wrap_and_chunk_thai_text(text, max_chars_per_line, max_lines)` from
src/main.py, with the fallback character tokenizer (pythainlp absent from
the repository): greedy line packing, chunks closed at `max_lines` lines,
each returned chunk newline-joined. -/
def wrap_and_chunk_thai_text (text : List Char) (W H : Nat) : List (List Char) :=
  (chunkLines text W H).map (fun c => (c.intersperse [NL]).flatten)

/-- Visible character count of a chunk: `len(chunk.replace('\n', ''))`. -/
def visChars (chunk : List Char) : Nat :=
  (chunk.filter (fun c => c ≠ NL)).length

/-- Step `total_chars = max(sum(len(c.replace('\n','')) for c in chunks), 1)`
from the timing allocation prologue in `render_video_task`. -/
def totalChars (chunks : List (List Char)) : Nat :=
  max ((chunks.map visChars).sum) 1

/-- The timing allocation loop of `render_video_task`: for each chunk,
`chunk_duration = (len(chunk.replace('\n','')) / total_chars) * duration`,
`start_t, end_t = current_time, current_time + chunk_duration`,
`current_time = end_t` (running cursor). -/
def allocLoop (total : ℚ) (duration : ℚ) :
    List (List Char) → ℚ → List (ℚ × ℚ)
  | [], _ => []
  | c :: rest, t =>
      let d := ((visChars c : ℚ) / total) * duration
      (t, t + d) :: allocLoop total duration rest (t + d)

/-- The full timing allocation: windows produced for a chunk sequence and a
narration duration, cursor starting at 0.0. -/
def allocWindows (chunks : List (List Char)) (duration : ℚ) : List (ℚ × ℚ) :=
  allocLoop (totalChars chunks) duration chunks 0

/-- The `chunk_duration` of one chunk of the allocation loop. -/
def chunkDur (total duration : ℚ) (c : List Char) : ℚ :=
  ((visChars c : ℚ) / total) * duration

/-- Cumulative duration of the first `k` chunks. -/
def cumDur (total duration : ℚ) (chunks : List (List Char)) (k : Nat) : ℚ :=
  ((chunks.take k).map (chunkDur total duration)).sum

/-- The chunk list of the spec's scenario: one chunk "Hello world"
(11 visible characters, no newline). -/
def helloChunks : List (List Char) :=
  [['H', 'e', 'l', 'l', 'o', ' ', 'w', 'o', 'r', 'l', 'd']]

/-- The chunker applied to an arbitrary token list (the `words` variable of
`wrap_and_chunk_thai_text`), starting from empty accumulators. -/
def wrapChunksOfTokens (words : List (List Char)) (W H : Nat) :
    List (List (List Char)) :=
  wrapLoop W H words [] [] []

/-- Model of `SceneItem` of src/main.py: scene number, narration script, and the
base64 image payload. Strings are modelled as `List Char`. -/
structure SceneItem where
  scene_number : Int
  script : List Char
  image_base64 : List Char
  deriving DecidableEq

/-- Model of `RenderRequest` of src/main.py. -/
structure RenderRequest where
  stock_symbol : List Char
  trade_setup : List (List Char × List Char)
  data : List SceneItem
  deriving DecidableEq

/-- Step `scenes = sorted(req.data, key=lambda s: s.scene_number)` from
`render_video_task` (Python's sorted is a stable merge sort). -/
def sortScenes (req : RenderRequest) : List SceneItem :=
  req.data.mergeSort (fun a b => a.scene_number ≤ b.scene_number)

/-- Environment of `get_font`: whether Sarabun-Bold.ttf is already on disk,
whether the download request completes without raising, and whether
`ImageFont.truetype` loads the file without raising. -/
structure FontEnv where
  fontFileExists : Bool
  downloadOk : Bool
  truetypeOk : Bool
  deriving DecidableEq

/-- Result of `get_font`: either the bundled truetype font at the requested
size, or Pillow's `ImageFont.load_default()` substitute. The source has no
error path: the function always returns a font. -/
inductive FontResult where
  | truetype (size : Nat)
  | loadDefault
  deriving DecidableEq

/-- Model of `get_font(fontsize)` from src/main.py: if the font file is missing, try
to download it, returning `load_default()` on a download exception; then try
`ImageFont.truetype`, returning `load_default()` on failure. -/
def get_font (env : FontEnv) (fontsize : Nat) : FontResult :=
  if env.fontFileExists then
    if env.truetypeOk then .truetype fontsize else .loadDefault
  else
    if env.downloadOk then
      if env.truetypeOk then .truetype fontsize else .loadDefault
    else .loadDefault

/-- HTTP-level response of the `/render` endpoint: either an
`HTTPException` or a JSON object modelled as a key/value list. -/
inductive Response where
  | httpError (status : Nat) (detail : List Char)
  | json (fields : List (List Char × List Char))
  deriving DecidableEq

/-- Model of `create_render_job` from src/main.py: reject an empty scene list with
HTTP 400; otherwise schedule `render_video_task` as a background task and
immediately return `{"status": "accepted", "message": "Job added to
background queue"}`. -/
def create_render_job (req : RenderRequest) : Response :=
  if req.data.isEmpty then .httpError 400 "No scene data provided".data
  else .json [("status".data, "accepted".data),
              ("message".data, "Job added to background queue".data)]

/-- Decoded image bytes (the content written to the scene's png file). -/
abbrev ImageBytes := List Nat

/-- Default scene used only as a `getD` placeholder. -/
def dfltScene : SceneItem := ⟨0, [], []⟩

/-- The image actually used for one scene, given the decoder verdict and the
current `last_valid_image`: the decoded bytes on success, else a copy of
`last_valid_image`, else a solid black frame
(`Image.new('RGB', ..., color='black')`). -/
def effImg (decode : List Char → Option ImageBytes) (black : ImageBytes)
    (lv : Option ImageBytes) (s : SceneItem) : ImageBytes :=
  match decode s.image_base64 with
  | some img => img
  | none => lv.getD black

/-- How `last_valid_image` evolves across one scene of the loop in
`render_video_task`: set to the decoded image on success; left unchanged
when an earlier image is copied; set to the black frame written when there
is no earlier image. -/
def stepLV (decode : List Char → Option ImageBytes) (black : ImageBytes)
    (lv : Option ImageBytes) (s : SceneItem) : Option ImageBytes :=
  match decode s.image_base64 with
  | some img => some img
  | none =>
      match lv with
      | some img => some img
      | none => some black

/-- The per-scene background images produced by the scene loop of
`render_video_task`, threading `last_valid_image` (initially `None`). -/
def effectiveImages (decode : List Char → Option ImageBytes) (black : ImageBytes) :
    List SceneItem → Option ImageBytes → List ImageBytes
  | [], _ => []
  | s :: rest, lv =>
      effImg decode black lv s :: effectiveImages decode black rest (stepLV decode black lv s)

/-- The most recently successfully decoded image in a list of scenes
(priority to later scenes), if any. -/
def lastDecoded (decode : List Char → Option ImageBytes) :
    List SceneItem → Option ImageBytes
  | [] => none
  | s :: rest =>
      match lastDecoded decode rest with
      | some img => some img
      | none => decode s.image_base64

/-- The substitution policy the claim states: a scene's image is its own
decoded payload when it decodes, else the most recently successfully decoded
image among the earlier scenes, else the given fallback (the black frame
when no fallback image exists). -/
def specImage (decode : List Char → Option ImageBytes) (black : ImageBytes)
    (fallback : Option ImageBytes) (earlier : List SceneItem) (s : SceneItem) :
    ImageBytes :=
  match decode s.image_base64 with
  | some img => img
  | none =>
      match lastDecoded decode earlier with
      | some img => img
      | none => fallback.getD black

/-- A concrete decoder for the C6 witness: only the payload "good" decodes
(to the image `[7]`). -/
def decodeOnlyGood : List Char → Option ImageBytes :=
  fun s => if s = "good".data then some [7] else none

/-- Scenes for the C6 witness: scene 1 malformed (gets black), scene 2 valid
(gets its own image), scene 3 malformed (gets scene 2's image). -/
def scenesWithBad : List SceneItem :=
  [⟨1, [], "bad".data⟩, ⟨2, [], "good".data⟩, ⟨3, [], "bad".data⟩]

/-- One RGBA pixel. -/
structure RGBA where
  r : Nat
  g : Nat
  b : Nat
  a : Nat
  deriving DecidableEq

/-- A rasterized bitmap: `Image.new('RGBA', (width, height), ...)` plus its
pixel rows. -/
structure Bitmap where
  width : Nat
  height : Nat
  pixels : List (List RGBA)
  deriving DecidableEq

/-- Result of `Image.new('RGBA', (width, height), (0,0,0,0))`: the empty
fully-transparent bitmap of the requested size. -/
def blankTransparent (w h : Nat) : Bitmap :=
  ⟨w, h, List.replicate h (List.replicate w ⟨0, 0, 0, 0⟩)⟩

/-- Every pixel of the bitmap has alpha 0. -/
def isFullyTransparent (bmp : Bitmap) : Bool :=
  bmp.pixels.all (fun row => row.all (fun p => p.a = 0))

/-- Model of `create_subtitle_image` from src/main.py at its boundary: the body
(font acquisition, line metrics, backing rectangle, outlined text) is the
external rasterization primitive, modelled as an `Except` result; the
source's catch-all `except` writes the blank transparent image of the
requested size instead, so the function is total. -/
def create_subtitle_image (attempt : Except (List Char) Bitmap) (w h : Nat) :
    Bitmap :=
  match attempt with
  | .ok img => img
  | .error _ => blankTransparent w h

/-- Model of `create_info_panel` from src/main.py at its boundary: same catch-all
structure as `create_subtitle_image`. -/
def create_info_panel (attempt : Except (List Char) Bitmap) (w h : Nat) :
    Bitmap :=
  match attempt with
  | .ok img => img
  | .error _ => blankTransparent w h

lemma closeLine_flatten (cc : List (List Char)) (cl : List Char) :
    (closeLine cc cl).flatten = cc.flatten ++ cl := by
  unfold closeLine
  split
  · rename_i h
    subst h
    simp
  · simp

lemma closeLine_length_le (cc : List (List Char)) (cl : List Char) :
    (closeLine cc cl).length ≤ cc.length + 1 := by
  unfold closeLine
  split <;> simp

lemma mem_closeLine {cc : List (List Char)} {cl l : List Char}
    (h : l ∈ closeLine cc cl) : l ∈ cc ∨ l = cl := by
  unfold closeLine at h
  split at h
  · exact Or.inl h
  · rcases List.mem_append.mp h with h' | h'
    · exact Or.inl h'
    · exact Or.inr (List.mem_singleton.mp h')

example : chunkLines ['a', 'b', 'c'] 2 1 = [[['a', 'b']], [['c']]] := by decide

example : wrap_and_chunk_thai_text ['a', 'b', 'c'] 2 2 = [['a', 'b', NL, 'c']] := by decide

example : allocWindows [['a', 'b'], ['c']] 3 = [(0, 2), (2, 3)] := by
  have h1 : visChars ['a', 'b'] = 2 := by decide
  have h2 : visChars ['c'] = 1 := by decide
  have ht : totalChars [['a', 'b'], ['c']] = 3 := by decide
  norm_num [allocWindows, allocLoop, h1, h2, ht]

example : allocWindows [[NL]] 4 = [(0, 0)] := by
  have h1 : visChars [NL] = 0 := by decide
  have ht : totalChars [[NL]] = 1 := by decide
  norm_num [allocWindows, allocLoop, h1, ht]

lemma allocLoop_cons (total dur : ℚ) (c : List Char) (rest : List (List Char)) (t : ℚ) :
    allocLoop total dur (c :: rest) t
      = (t, t + chunkDur total dur c)
        :: allocLoop total dur rest (t + chunkDur total dur c) := by
  simp [allocLoop, chunkDur]

lemma allocLoop_length (total dur : ℚ) :
    ∀ (chunks : List (List Char)) (t : ℚ),
      (allocLoop total dur chunks t).length = chunks.length := by
  intro chunks
  induction chunks with
  | nil => intro t; simp [allocLoop]
  | cons c rest ih => intro t; simp [allocLoop, ih]

lemma cumDur_zero (total dur : ℚ) (chunks : List (List Char)) :
    cumDur total dur chunks 0 = 0 := by
  simp [cumDur]

lemma cumDur_succ_cons (total dur : ℚ) (c : List Char) (rest : List (List Char)) (k : Nat) :
    cumDur total dur (c :: rest) (k + 1)
      = chunkDur total dur c + cumDur total dur rest k := by
  simp [cumDur, List.take_succ_cons]

lemma allocLoop_getD (total dur : ℚ) :
    ∀ (chunks : List (List Char)) (t : ℚ) (i : Nat), i < chunks.length →
      (allocLoop total dur chunks t).getD i (0, 0)
        = (t + cumDur total dur chunks i, t + cumDur total dur chunks (i + 1)) := by
  intro chunks
  induction chunks with
  | nil => intro t i hi; simp at hi
  | cons c rest ih =>
      intro t i hi
      cases i with
      | zero =>
          rw [allocLoop_cons]
          simp [cumDur_zero, cumDur_succ_cons]
      | succ j =>
          have hj : j < rest.length := by simpa using hi
          rw [allocLoop_cons]
          have : (((t, t + chunkDur total dur c)
              :: allocLoop total dur rest (t + chunkDur total dur c)).getD (j + 1) (0, 0))
              = (allocLoop total dur rest (t + chunkDur total dur c)).getD j (0, 0) := rfl
          rw [this, ih (t + chunkDur total dur c) j hj]
          rw [cumDur_succ_cons, cumDur_succ_cons]
          rw [Prod.mk.injEq]
          constructor <;> ring

lemma sum_map_chunkDur (total dur : ℚ) (chunks : List (List Char)) :
    (chunks.map (chunkDur total dur)).sum
      = (((chunks.map visChars).sum : ℚ) / total) * dur := by
  induction chunks with
  | nil => simp
  | cons c rest ih =>
      simp [chunkDur, ih]
      ring

lemma cumDur_length (total dur : ℚ) (chunks : List (List Char)) :
    cumDur total dur chunks chunks.length
      = (((chunks.map visChars).sum : ℚ) / total) * dur := by
  rw [cumDur, List.take_length, sum_map_chunkDur]

lemma totalChars_eq_sum (chunks : List (List Char))
    (h : 0 < (chunks.map visChars).sum) :
    totalChars chunks = (chunks.map visChars).sum := by
  simp only [totalChars]
  omega

lemma cumDur_succ (total dur : ℚ) :
    ∀ (chunks : List (List Char)) (i : Nat), i < chunks.length →
      cumDur total dur chunks (i + 1)
        = cumDur total dur chunks i + chunkDur total dur (chunks.getD i []) := by
  intro chunks
  induction chunks with
  | nil => intro i hi; simp at hi
  | cons c rest ih =>
      intro i hi
      cases i with
      | zero => simp [cumDur_succ_cons, cumDur_zero]
      | succ j =>
          have hj : j < rest.length := by simpa using hi
          rw [cumDur_succ_cons, cumDur_succ_cons, ih j hj]
          simp [List.getD_cons_succ]
          ring

lemma getLast_eq_getD (l : List (ℚ × ℚ)) (h : l ≠ []) :
    l.getLast h = l.getD (l.length - 1) (0, 0) := by
  have hl : l.length - 1 < l.length := by
    have : 0 < l.length := List.length_pos.mpr h
    omega
  rw [List.getLast_eq_getElem, List.getD_eq_getElem _ _ hl]

lemma allocWindows_getD (chunks : List (List Char)) (d : ℚ) :
    ∀ i, i < chunks.length →
      (allocWindows chunks d).getD i (0, 0)
        = (cumDur (totalChars chunks) d chunks i,
           cumDur (totalChars chunks) d chunks (i + 1)) := by
  intro i hi
  have h := allocLoop_getD (totalChars chunks) d chunks 0 i hi
  simpa [allocWindows] using h

/-- C1: for every chunk sequence with at least one visible (non-newline)
character and every narration duration `d ≥ 0`, the windows assigned by the
timing allocation loop of `render_video_task` are one per chunk, the first
starts at 0, each window starts exactly where the previous one ends
(running cursor, hence contiguous), no window runs backwards (hence
non-overlapping), the last ends at `d`, and each window's length equals
`d * visChars(chunk) / (total visible characters)`. -/
theorem C1_timing_allocation (chunks : List (List Char)) (d : ℚ)
    (hd : 0 ≤ d) (hvis : 0 < (chunks.map visChars).sum) :
    (allocWindows chunks d).length = chunks.length
    ∧ ((allocWindows chunks d).getD 0 (0, 0)).1 = 0
    ∧ (∀ i, i + 1 < chunks.length →
        ((allocWindows chunks d).getD i (0, 0)).2
          = ((allocWindows chunks d).getD (i + 1) (0, 0)).1)
    ∧ (∀ i, i < chunks.length →
        ((allocWindows chunks d).getD i (0, 0)).1
          ≤ ((allocWindows chunks d).getD i (0, 0)).2)
    ∧ (∀ h : allocWindows chunks d ≠ [],
        ((allocWindows chunks d).getLast h).2 = d)
    ∧ (∀ i, i < chunks.length →
        ((allocWindows chunks d).getD i (0, 0)).2
            - ((allocWindows chunks d).getD i (0, 0)).1
          = d * (visChars (chunks.getD i []) : ℚ)
              / ((chunks.map visChars).sum : ℚ)) := by
  have hne : chunks ≠ [] := by
    intro h
    subst h
    simp at hvis
  have h0 : 0 < chunks.length := List.length_pos.mpr hne
  have hTnat : totalChars chunks = (chunks.map visChars).sum :=
    totalChars_eq_sum chunks hvis
  have hSpos : (0 : ℚ) < ((chunks.map visChars).sum : ℚ) := by exact_mod_cast hvis
  have hTpos : (0 : ℚ) < (totalChars chunks : ℚ) := by
    rw [hTnat]
    exact hSpos
  have hlen : (allocWindows chunks d).length = chunks.length := by
    simp [allocWindows, allocLoop_length]
  have hnn : ∀ c, 0 ≤ chunkDur (totalChars chunks) d c := by
    intro c
    exact mul_nonneg (div_nonneg (by positivity) (le_of_lt hTpos)) hd
  refine ⟨hlen, ?_, ?_, ?_, ?_, ?_⟩
  · rw [allocWindows_getD chunks d 0 h0]
    simp [cumDur_zero]
  · intro i hi
    have hi1 : i < chunks.length := Nat.lt_of_succ_lt hi
    rw [allocWindows_getD chunks d i hi1, allocWindows_getD chunks d (i + 1) hi]
  · intro i hi
    rw [allocWindows_getD chunks d i hi]
    dsimp only
    rw [cumDur_succ (totalChars chunks) d chunks i hi]
    have := hnn (chunks.getD i [])
    linarith
  · intro h
    rw [getLast_eq_getD _ h, hlen]
    have hlt : chunks.length - 1 < chunks.length := by omega
    rw [allocWindows_getD chunks d (chunks.length - 1) hlt]
    dsimp only
    have hple : chunks.length - 1 + 1 = chunks.length := by omega
    rw [hple, cumDur_length, hTnat, div_self (ne_of_gt hSpos), one_mul]
  · intro i hi
    rw [allocWindows_getD chunks d i hi]
    dsimp only
    rw [cumDur_succ (totalChars chunks) d chunks i hi, hTnat]
    simp [chunkDur]
    ring

/-- Witness for C1 at the spec's own scenario: chunks `["Hello world"]`
(11 visible characters), duration 4; the single window is `[0, 4)`. -/
theorem C1_timing_allocation_witness :
    (0 : ℚ) ≤ 4
    ∧ 0 < (helloChunks.map visChars).sum
    ∧ ((allocWindows helloChunks 4).length = helloChunks.length
      ∧ ((allocWindows helloChunks 4).getD 0 (0, 0)).1 = 0
      ∧ (∀ i, i + 1 < helloChunks.length →
          ((allocWindows helloChunks 4).getD i (0, 0)).2
            = ((allocWindows helloChunks 4).getD (i + 1) (0, 0)).1)
      ∧ (∀ i, i < helloChunks.length →
          ((allocWindows helloChunks 4).getD i (0, 0)).1
            ≤ ((allocWindows helloChunks 4).getD i (0, 0)).2)
      ∧ (∀ h : allocWindows helloChunks 4 ≠ [],
          ((allocWindows helloChunks 4).getLast h).2 = 4)
      ∧ (∀ i, i < helloChunks.length →
          ((allocWindows helloChunks 4).getD i (0, 0)).2
              - ((allocWindows helloChunks 4).getD i (0, 0)).1
            = 4 * (visChars (helloChunks.getD i []) : ℚ)
                / ((helloChunks.map visChars).sum : ℚ))) :=
  ⟨by norm_num, by decide,
    C1_timing_allocation helloChunks 4 (by norm_num) (by decide)⟩

lemma allocLoop_all_zero (total d : ℚ) :
    ∀ (chunks : List (List Char)) (t : ℚ),
      (∀ c ∈ chunks, visChars c = 0) →
      allocLoop total d chunks t = chunks.map (fun _ => (t, t)) := by
  intro chunks
  induction chunks with
  | nil => intro t _; simp [allocLoop]
  | cons c rest ih =>
      intro t hz
      have hc : visChars c = 0 := hz c (List.mem_cons_self c rest)
      have hrest : ∀ x ∈ rest, visChars x = 0 :=
        fun x hx => hz x (List.mem_cons_of_mem c hx)
      rw [allocLoop_cons, chunkDur, hc]
      simp [ih t hrest]

/-- C3 counterexample: the chunk list `["\n"]` has zero visible characters in
every chunk; at narration duration 4 the code assigns the window `[0, 0)`,
not the equal share `[0, 4)`, so the windows do not cover the duration. -/
theorem C3_counterexample :
    allocWindows [[NL]] 4 = [(0, 0)] ∧ allocWindows [[NL]] 4 ≠ [(0, 4)] := by
  have h1 : visChars [NL] = 0 := by decide
  have ht : totalChars [[NL]] = 1 := by decide
  constructor
  · norm_num [allocWindows, allocLoop, h1, ht]
  · norm_num [allocWindows, allocLoop, h1, ht, Prod.ext_iff]

/-- C3 (amended): when every chunk of a scene has zero visible characters,
the divisor `total_chars` is clamped to 1 (so no division by zero occurs),
and each chunk is assigned the zero-length window `[0, 0)`; the windows
collapse at 0 instead of covering the narration duration in equal shares. -/
theorem C3_all_zero_visible (chunks : List (List Char)) (d : ℚ)
    (hz : ∀ c ∈ chunks, visChars c = 0) :
    totalChars chunks = 1
    ∧ allocWindows chunks d = chunks.map (fun _ => ((0 : ℚ), (0 : ℚ))) := by
  constructor
  · have hsum : (chunks.map visChars).sum = 0 := by
      rw [List.sum_eq_zero]
      intro x hx
      rcases List.mem_map.mp hx with ⟨c, hc, rfl⟩
      exact hz c hc
    simp [totalChars, hsum]
  · exact allocLoop_all_zero (totalChars chunks) d chunks 0 hz

/-- Witness for C3's amended theorem at chunks `["\n"]`, duration 4. -/
theorem C3_all_zero_visible_witness :
    (∀ c ∈ [[NL]], visChars c = 0)
    ∧ (totalChars [[NL]] = 1
      ∧ allocWindows [[NL]] (4 : ℚ) = [[NL]].map (fun _ => ((0 : ℚ), (0 : ℚ)))) :=
  ⟨by decide, C3_all_zero_visible [[NL]] 4 (by decide)⟩

lemma chunkLines_eq_wrapChunksOfTokens (text : List Char) (W H : Nat) :
    chunkLines text W H = wrapChunksOfTokens (tokenizeFallback text) W H := rfl

lemma closeLine_lines_le {W : Nat} {cc : List (List Char)} {cl : List Char}
    (hcc : ∀ l ∈ cc, l.length ≤ W) (hcl : cl.length ≤ W) :
    ∀ l ∈ closeLine cc cl, l.length ≤ W := by
  intro l hl
  rcases mem_closeLine hl with h | rfl
  · exact hcc l h
  · exact hcl

lemma wrapLoop_bounds (W H : Nat) (hH : 1 ≤ H) :
    ∀ (ws : List (List Char)) (chunks : List (List (List Char)))
      (cc : List (List Char)) (cl : List Char),
      (∀ w ∈ ws, w.length ≤ W) →
      cl.length ≤ W →
      (∀ l ∈ cc, l.length ≤ W) →
      cc.length < H →
      (∀ ch ∈ chunks, ch.length ≤ H ∧ ∀ l ∈ ch, l.length ≤ W) →
      ∀ ch ∈ wrapLoop W H ws chunks cc cl, ch.length ≤ H ∧ ∀ l ∈ ch, l.length ≤ W := by
  intro ws
  induction ws with
  | nil =>
      intro chunks cc cl _ hcl hcc hcclen hchunks
      have h1 := closeLine_length_le cc cl
      simp only [wrapLoop]
      split
      · exact hchunks
      · intro ch hch
        rcases List.mem_append.mp hch with h | h
        · exact hchunks ch h
        · rcases List.mem_singleton.mp h with rfl
          exact ⟨by omega, closeLine_lines_le hcc hcl⟩
  | cons w ws ih =>
      intro chunks cc cl hws hcl hcc hcclen hchunks
      have hw : w.length ≤ W := hws w (List.mem_cons_self w ws)
      have hws' : ∀ x ∈ ws, x.length ≤ W :=
        fun x hx => hws x (List.mem_cons_of_mem w hx)
      have hclose := closeLine_length_le cc cl
      have hclosel := closeLine_lines_le hcc hcl
      simp only [wrapLoop]
      split
      · exact ih chunks cc (cl ++ w) hws' (by simp; omega) hcc hcclen hchunks
      · split
        · rename_i hflush
          refine ih (chunks ++ [closeLine cc cl]) [] w hws' hw (by simp) (by simpa using hH) ?_
          intro ch hch
          rcases List.mem_append.mp hch with h | h
          · exact hchunks ch h
          · rcases List.mem_singleton.mp h with rfl
            exact ⟨by omega, hclosel⟩
        · rename_i hnoflush
          exact ih chunks (closeLine cc cl) w hws' hw hclosel (by omega) hchunks

/-- C2 counterexample to the claim as stated (universally over the
parameters): at `W = 0` the script "a" yields the line "a" of length 1 > W,
and at `H = 0` the script "ab" (W = 32) yields a chunk of 1 > H lines. -/
theorem C2_counterexample :
    (¬ ∀ ch ∈ chunkLines ['a'] 0 3, ∀ l ∈ ch, l.length ≤ 0)
    ∧ (¬ ∀ ch ∈ chunkLines ['a', 'b'] 32 0, ch.length ≤ 0) := by
  decide

/-- C2 (amended): for every script and parameters `W ≥ 1`, `H ≥ 1`, the
chunker `wrap_and_chunk_thai_text` (fallback character tokenizer, lines
taken structurally as greedily packed before the newline join) never
produces a line longer than `W` characters and never a chunk of more than
`H` lines. -/
theorem C2_chunker_bounds (text : List Char) (W H : Nat)
    (hW : 1 ≤ W) (hH : 1 ≤ H) :
    ∀ ch ∈ chunkLines text W H, ch.length ≤ H ∧ ∀ l ∈ ch, l.length ≤ W := by
  apply wrapLoop_bounds W H hH
  · intro w hw
    rcases List.mem_map.mp hw with ⟨c, _, rfl⟩
    simpa using hW
  · simp
  · simp
  · simpa using hH
  · simp

/-- Witness for C2's amended theorem at the defaults `W = 32`, `H = 3` on
the script "Hello world". -/
theorem C2_chunker_bounds_witness :
    (1 ≤ 32 ∧ 1 ≤ 3)
    ∧ ∀ ch ∈ chunkLines ['H', 'e', 'l', 'l', 'o', ' ', 'w', 'o', 'r', 'l', 'd'] 32 3,
        ch.length ≤ 3 ∧ ∀ l ∈ ch, l.length ≤ 32 :=
  ⟨⟨by norm_num, by norm_num⟩,
    C2_chunker_bounds ['H', 'e', 'l', 'l', 'o', ' ', 'w', 'o', 'r', 'l', 'd'] 32 3
      (by norm_num) (by norm_num)⟩

lemma wrapLoop_flatten (W H : Nat) :
    ∀ (ws : List (List Char)) (chunks : List (List (List Char)))
      (cc : List (List Char)) (cl : List Char),
      ((wrapLoop W H ws chunks cc cl).map List.flatten).flatten
        = (chunks.map List.flatten).flatten ++ cc.flatten ++ cl ++ ws.flatten := by
  intro ws
  induction ws with
  | nil =>
      intro chunks cc cl
      simp only [wrapLoop]
      split
      · rename_i hnil
        have h := closeLine_flatten cc cl
        rw [hnil] at h
        simp only [List.flatten_nil] at h
        rcases List.append_eq_nil.mp h.symm with ⟨h1, h2⟩
        simp [h1, h2]
      · simp [closeLine_flatten]
  | cons w ws ih =>
      intro chunks cc cl
      simp only [wrapLoop, List.flatten_cons]
      split
      · rw [ih]
        simp
      · split
        · rw [ih]
          simp [closeLine_flatten]
        · rw [ih]
          simp [closeLine_flatten]

lemma tokenizeFallback_flatten (text : List Char) :
    (tokenizeFallback text).flatten = text := by
  induction text with
  | nil => rfl
  | cons c cs ih => simp [tokenizeFallback] at ih ⊢; exact ih

/-- C10: the chunker loses and duplicates no text: for any token list, the
concatenation of the lines of all chunks produced by the greedy packing loop
equals the concatenation of the tokens; with the character-fallback
tokenizer this is exactly the original script. -/
theorem C10_text_preservation :
    (∀ (words : List (List Char)) (W H : Nat),
      ((wrapChunksOfTokens words W H).map List.flatten).flatten = words.flatten)
    ∧ (∀ (text : List Char) (W H : Nat),
      ((chunkLines text W H).map List.flatten).flatten = text) := by
  have hgen : ∀ (words : List (List Char)) (W H : Nat),
      ((wrapChunksOfTokens words W H).map List.flatten).flatten = words.flatten := by
    intro words W H
    rw [wrapChunksOfTokens, wrapLoop_flatten]
    simp
  refine ⟨hgen, ?_⟩
  intro text W H
  rw [chunkLines_eq_wrapChunksOfTokens, hgen, tokenizeFallback_flatten]

/-- C8: scenes are processed, and their clips listed for concatenation, in
ascending `scene_number` regardless of the order in the request: the sorted
sequence is pairwise nondecreasing in `scene_number` and is a permutation of
the request's scenes; in particular a request submitting scene 2 before
scene 1 is processed as scene 1 then scene 2. -/
theorem C8_concat_ascending_order :
    (∀ req : RenderRequest,
      List.Pairwise (fun a b : SceneItem => a.scene_number ≤ b.scene_number)
        (sortScenes req)
      ∧ (sortScenes req).Perm req.data)
    ∧ (sortScenes
        ⟨"T".data, [],
          [⟨2, "b".data, "i2".data⟩, ⟨1, "a".data, "i1".data⟩]⟩).map
          (fun s => s.scene_number) = [1, 2] := by
  constructor
  · intro req
    constructor
    · have hs := @List.sorted_mergeSort SceneItem
        (fun a b : SceneItem => decide (a.scene_number ≤ b.scene_number))
        (fun a b c hab hbc => by
          simp only [decide_eq_true_eq] at *
          exact le_trans hab hbc)
        (fun a b => by
          simp only [Bool.or_eq_true, decide_eq_true_eq]
          exact le_total a.scene_number b.scene_number)
        req.data
      refine List.Pairwise.imp ?_ hs
      intro a b h
      simpa using h
    · exact List.mergeSort_perm req.data _
  · simp [sortScenes, List.mergeSort]

/-- C9: chunking and timing allocation are deterministic: two runs on equal
scripts, equal chunk parameters and equal narration durations produce
identical chunk boundaries and identical subtitle windows. (The source
computes both purely from the request: no mutable state feeds
`wrap_and_chunk_thai_text` or the allocation loop, so the embedding is a
pure function and determinism is equality of outputs on equal inputs.) -/
theorem C9_determinism (s₁ s₂ : List Char) (W₁ W₂ H₁ H₂ : Nat) (d₁ d₂ : ℚ)
    (hs : s₁ = s₂) (hW : W₁ = W₂) (hH : H₁ = H₂) (hd : d₁ = d₂) :
    wrap_and_chunk_thai_text s₁ W₁ H₁ = wrap_and_chunk_thai_text s₂ W₂ H₂
    ∧ allocWindows (wrap_and_chunk_thai_text s₁ W₁ H₁) d₁
        = allocWindows (wrap_and_chunk_thai_text s₂ W₂ H₂) d₂ := by
  subst hs
  subst hW
  subst hH
  subst hd
  exact ⟨rfl, rfl⟩

/-- Witness for C9 at a concrete script, parameters and duration. -/
theorem C9_determinism_witness :
    (['a', 'b'] : List Char) = ['a', 'b']
    ∧ (wrap_and_chunk_thai_text ['a', 'b'] 32 3 = wrap_and_chunk_thai_text ['a', 'b'] 32 3
      ∧ allocWindows (wrap_and_chunk_thai_text ['a', 'b'] 32 3) (4 : ℚ)
          = allocWindows (wrap_and_chunk_thai_text ['a', 'b'] 32 3) (4 : ℚ)) :=
  ⟨rfl, C9_determinism ['a', 'b'] ['a', 'b'] 32 32 3 3 4 4 rfl rfl rfl rfl⟩

/-- C4: the claim (and spec §4.3) requires font resolution to fail fast when
the bundled font is unavailable; the code instead returns the
`ImageFont.load_default()` substitute both when the download raises and when
the bundled file cannot be loaded — and its type has no failure outcome at
all. Evaluating the code at the failing inputs exhibits the divergence. -/
theorem C4_font_silent_fallback :
    get_font ⟨false, false, true⟩ 28 = .loadDefault
    ∧ get_font ⟨true, true, false⟩ 28 = .loadDefault
    ∧ get_font ⟨false, true, false⟩ 28 = .loadDefault := by
  exact ⟨rfl, rfl, rfl⟩

/-- C5 counterexample: for a concrete valid request the synchronous response
is the accepted-acknowledgment JSON, whose keys are only `status` and
`message` — it contains neither `ok` nor any `asset_address` storage
location. -/
theorem C5_counterexample :
    create_render_job ⟨"TEST".data, [], [⟨1, "hi".data, "img".data⟩]⟩
      = .json [("status".data, "accepted".data),
               ("message".data, "Job added to background queue".data)]
    ∧ "asset_address".data ∉
        ([("status".data, "accepted".data),
          ("message".data, "Job added to background queue".data)].map Prod.fst)
    ∧ "ok".data ∉
        ([("status".data, "accepted".data),
          ("message".data, "Job added to background queue".data)].map Prod.fst) := by
  refine ⟨rfl, ?_, ?_⟩ <;> decide

/-- C5 (amended): for every request with a non-empty scene list, the
synchronous response is `{"status": "accepted", "message": "Job added to
background queue"}`: rendering runs as a background task and the storage
address of the produced asset is only logged, never returned to the
caller. -/
theorem C5_accepted_response (req : RenderRequest) (h : req.data ≠ []) :
    create_render_job req
      = .json [("status".data, "accepted".data),
               ("message".data, "Job added to background queue".data)] := by
  unfold create_render_job
  rw [if_neg]
  simpa using h

/-- Witness for C5's amended theorem at a concrete one-scene request. -/
theorem C5_accepted_response_witness :
    (RenderRequest.data ⟨"TEST".data, [], [⟨1, "hi".data, "img".data⟩]⟩ ≠ [])
    ∧ create_render_job ⟨"TEST".data, [], [⟨1, "hi".data, "img".data⟩]⟩
        = .json [("status".data, "accepted".data),
                 ("message".data, "Job added to background queue".data)] :=
  ⟨by decide, C5_accepted_response ⟨"TEST".data, [], [⟨1, "hi".data, "img".data⟩]⟩ (by decide)⟩

lemma lastDecoded_cons (decode : List Char → Option ImageBytes)
    (s : SceneItem) (l : List SceneItem) :
    lastDecoded decode (s :: l)
      = match lastDecoded decode l with
        | some img => some img
        | none => decode s.image_base64 := rfl

lemma specImage_cons (decode : List Char → Option ImageBytes) (black : ImageBytes)
    (lv : Option ImageBytes) (s x : SceneItem) (earlier : List SceneItem) :
    specImage decode black (stepLV decode black lv s) earlier x
      = specImage decode black lv (s :: earlier) x := by
  unfold specImage stepLV
  rw [lastDecoded_cons]
  cases hx : decode x.image_base64 with
  | some img => simp
  | none =>
      cases hld : lastDecoded decode earlier with
      | some img => simp
      | none =>
          cases hs : decode s.image_base64 with
          | some img => simp
          | none => cases lv <;> simp

lemma effectiveImages_length (decode : List Char → Option ImageBytes)
    (black : ImageBytes) :
    ∀ (scenes : List SceneItem) (lv : Option ImageBytes),
      (effectiveImages decode black scenes lv).length = scenes.length := by
  intro scenes
  induction scenes with
  | nil => intro lv; rfl
  | cons s rest ih => intro lv; simp [effectiveImages, ih]

lemma effectiveImages_getD (decode : List Char → Option ImageBytes)
    (black : ImageBytes) :
    ∀ (scenes : List SceneItem) (lv : Option ImageBytes) (i : Nat),
      i < scenes.length →
      (effectiveImages decode black scenes lv).getD i black
        = specImage decode black lv (scenes.take i) (scenes.getD i dfltScene) := by
  intro scenes
  induction scenes with
  | nil => intro lv i hi; simp at hi
  | cons s rest ih =>
      intro lv i hi
      cases i with
      | zero =>
          simp [effectiveImages, specImage, lastDecoded, effImg]
      | succ j =>
          have hj : j < rest.length := by simpa using hi
          show (effectiveImages decode black rest (stepLV decode black lv s)).getD j black = _
          rw [ih (stepLV decode black lv s) j hj]
          rw [List.take_succ_cons]
          rw [specImage_cons]
          rfl

/-- C6: for every decoder behavior and every scene list, the scene loop
produces one background image per scene (a malformed image never aborts the
request), and the image used for the i-th scene is its own payload when it
decodes, else the most recently successfully decoded image of an earlier
scene, else the solid black frame. -/
theorem C6_image_substitution (decode : List Char → Option ImageBytes)
    (black : ImageBytes) (scenes : List SceneItem) :
    (effectiveImages decode black scenes none).length = scenes.length
    ∧ ∀ i, i < scenes.length →
        (effectiveImages decode black scenes none).getD i black
          = specImage decode black none (scenes.take i) (scenes.getD i dfltScene) := by
  refine ⟨effectiveImages_length decode black scenes none, ?_⟩
  intro i hi
  exact effectiveImages_getD decode black scenes none i hi

/-- Witness for C6 at a concrete decoder and scene list, checking the
substituted values at every index: black frame for the failing first scene,
own image for the decoding second, the second's image for the failing
third. -/
theorem C6_image_substitution_witness :
    (2 < scenesWithBad.length)
    ∧ (effectiveImages decodeOnlyGood [0] scenesWithBad none).getD 2 [0]
        = specImage decodeOnlyGood [0] none (scenesWithBad.take 2)
            (scenesWithBad.getD 2 dfltScene)
    ∧ effectiveImages decodeOnlyGood [0] scenesWithBad none = [[0], [7], [7]] :=
  ⟨by decide,
    (C6_image_substitution decodeOnlyGood [0] scenesWithBad).2 2 (by decide),
    by decide⟩

/-- C7: a failure while rasterizing a subtitle chunk or the info panel is
absorbed locally: for every error and requested size, both renderers return
(write) the empty fully-transparent bitmap of the requested width and
height, and — being total functions into `Bitmap` — propagate no exception
to the caller. -/
theorem C7_render_failure_blank (e₁ e₂ : List Char) (w h : Nat) :
    create_subtitle_image (.error e₁) w h = blankTransparent w h
    ∧ create_info_panel (.error e₂) w h = blankTransparent w h
    ∧ (blankTransparent w h).width = w
    ∧ (blankTransparent w h).height = h
    ∧ isFullyTransparent (blankTransparent w h) = true := by
  refine ⟨rfl, rfl, rfl, rfl, ?_⟩
  simp [isFullyTransparent, blankTransparent, List.all_eq_true, List.mem_replicate]

end VideoRenderer
